import Mathlib

/-!
Shallow embedding of the retail-insight-genie RAG repository.

The embedding follows `src/rag.py` (document loading, the `RAG` class with
its TF-IDF model, `retrieve` and `answer`) and `src/evaluate.py`
(`precision_at_k`).  The TF-IDF model mirrors the behaviour of
`sklearn.feature_extraction.text.TfidfVectorizer(stop_words="english")`
with its default settings: lower-casing, tokenization on maximal runs of
word characters of length at least two, removal of the English stop-word
list, smoothed inverse document frequency `log((1+n)/(1+df)) + 1`,
`tf * idf` weighting and L2 normalisation of each row (a row of zeros is
left unchanged).  Query-document scores are the dot products of the
normalised rows (`linear_kernel`), and `retrieve` ranks them with
`scores.argsort()[::-1][:k]` followed by the positive-score filter; the
ascending `argsort` is modelled as a stable ascending sort of the index
list, which is what numpy computes on small arrays.  Floating point
arithmetic is modelled by exact real arithmetic.
-/

namespace RetailRag

/-- Minimal JSON value type: the possible results of `json.load` in
`load_docs` (src/rag.py). -/
inductive Json where
  | null : Json
  | bool (b : Bool) : Json
  | num (q : ℚ) : Json
  | str (s : String) : Json
  | arr (elems : List Json) : Json
  | obj (fields : List (String × Json)) : Json

/-- Embeds `load_docs` (src/rag.py, lines 37-42): once `json.load` has parsed
the file into a value, a non-list top level raises
`ValueError("documents JSON must contain a list")`; otherwise the parsed
list is returned unchanged. -/
def load_docs (data : Json) : Except String (List Json) :=
  match data with
  | Json.arr xs => Except.ok xs
  | _ => Except.error "documents JSON must contain a list"

/-- A document record as consumed by the `RAG` class: a mapping from which
only the optional string fields `title` and `description` are ever read,
via `doc.get("title", "")` and `doc.get("description", "")`. -/
structure Doc where
  title : Option String
  description : Option String

/-- Text of one document, `f"{doc.get('title', '')} {doc.get('description', '')}"`
from `RAG.__init__`. -/
def textOf (doc : Doc) : String :=
  doc.title.getD "" ++ " " ++ doc.description.getD ""

/-- The list `self.texts` built by `RAG.__init__`. -/
def ragTexts (docs : List Doc) : List String :=
  docs.map textOf

/-- Word characters of the default `token_pattern` regex `\w\w+`. -/
def isWordChar (c : Char) : Bool :=
  c.isAlphanum || c = '_'

/-- Maximal runs of word characters in a character list; the accumulator
holds the current run in reverse. -/
def wordRuns : List Char → List Char → List (List Char)
  | [], acc => if acc.isEmpty then [] else [acc.reverse]
  | c :: cs, acc =>
    if isWordChar c then wordRuns cs (c :: acc)
    else if acc.isEmpty then wordRuns cs [] else acc.reverse :: wordRuns cs []

/-- English stop-word list used by
`TfidfVectorizer(stop_words="english")` (sklearn's built-in frozen set). -/
def englishStopWords : List String :=
  ["a", "about", "above", "across", "after", "afterwards", "again", "against",
   "all", "almost", "alone", "along", "already", "also", "although", "always",
   "am", "among", "amongst", "amoungst", "amount", "an", "and", "another",
   "any", "anyhow", "anyone", "anything", "anyway", "anywhere", "are",
   "around", "as", "at", "back", "be", "became", "because", "become",
   "becomes", "becoming", "been", "before", "beforehand", "behind", "being",
   "below", "beside", "besides", "between", "beyond", "bill", "both",
   "bottom", "but", "by", "call", "can", "cannot", "cant", "co", "con",
   "could", "couldnt", "cry", "de", "describe", "detail", "do", "done",
   "down", "due", "during", "each", "eg", "eight", "either", "eleven",
   "else", "elsewhere", "empty", "enough", "etc", "even", "ever", "every",
   "everyone", "everything", "everywhere", "except", "few", "fifteen",
   "fifty", "fill", "find", "fire", "first", "five", "for", "former",
   "formerly", "forty", "found", "four", "from", "front", "full", "further",
   "get", "give", "go", "had", "has", "hasnt", "have", "he", "hence", "her",
   "here", "hereafter", "hereby", "herein", "hereupon", "hers", "herself",
   "him", "himself", "his", "how", "however", "hundred", "i", "ie", "if",
   "in", "inc", "indeed", "interest", "into", "is", "it", "its", "itself",
   "keep", "last", "latter", "latterly", "least", "less", "ltd", "made",
   "many", "may", "me", "meanwhile", "might", "mill", "mine", "more",
   "moreover", "most", "mostly", "move", "much", "must", "my", "myself",
   "name", "namely", "neither", "never", "nevertheless", "next", "nine",
   "no", "nobody", "none", "noone", "nor", "not", "nothing", "now",
   "nowhere", "of", "off", "often", "on", "once", "one", "only", "onto",
   "or", "other", "others", "otherwise", "our", "ours", "ourselves", "out",
   "over", "own", "part", "per", "perhaps", "please", "put", "rather", "re",
   "same", "see", "seem", "seemed", "seeming", "seems", "serious", "several",
   "she", "should", "show", "side", "since", "sincere", "six", "sixty", "so",
   "some", "somehow", "someone", "something", "sometime", "sometimes",
   "somewhere", "still", "such", "system", "take", "ten", "than", "that",
   "the", "their", "them", "themselves", "then", "thence", "there",
   "thereafter", "thereby", "therefore", "therein", "thereupon", "these",
   "they", "thick", "thin", "third", "this", "those", "though", "three",
   "through", "throughout", "thru", "thus", "to", "together", "too", "top",
   "toward", "towards", "twelve", "twenty", "two", "un", "under", "until",
   "up", "upon", "us", "very", "via", "was", "we", "well", "were", "what",
   "whatever", "when", "whence", "whenever", "where", "whereafter",
   "whereas", "whereby", "wherein", "whereupon", "wherever", "whether",
   "which", "while", "whither", "who", "whoever", "whole", "whom", "whose",
   "why", "will", "with", "within", "without", "would", "yet", "you",
   "your", "yours", "yourself", "yourselves"]

/-- The analyzer of the vectorizer: lower-case the text, extract the tokens
matched by `\w\w+` (runs of at least two word characters) and drop the
English stop words. -/
def tokenize (s : String) : List String :=
  (((wordRuns (s.data.map Char.toLower) []).filter (fun t => 2 ≤ t.length)).map
      (fun t => t.asString)).filter (fun t => !englishStopWords.contains t)

/-- Lexicographic comparison of character lists by code point, the order
Python uses when `sorted` ranks the vocabulary terms. -/
def charListLe : List Char → List Char → Bool
  | [], _ => true
  | _ :: _, [] => false
  | a :: as, b :: bs =>
    if a.val < b.val then true
    else if b.val < a.val then false
    else charListLe as bs

/-- Vocabulary fitted by the vectorizer: the distinct tokens of all texts,
sorted ascending; the position of a term in this list is its dimension. -/
def vocabOf (texts : List String) : List String :=
  List.insertionSort (fun a b => charListLe a.data b.data = true)
    ((texts.map tokenize).flatten.dedup)

/-- Term frequency: number of occurrences of `term` among the tokens of
`text`. -/
def tf (text : String) (term : String) : ℕ :=
  (tokenize text).count term

/-- Document frequency: number of texts whose token list contains `term`. -/
def df (texts : List String) (term : String) : ℕ :=
  texts.countP (fun text => (tokenize text).contains term)

/-- Message of the ValueError raised by sklearn's vectorizer when fitting
produces an empty vocabulary. -/
def emptyVocabMessage : String :=
  "empty vocabulary; perhaps the documents only contain stop words"

/-- Embeds `RAG.__init__` (src/rag.py, lines 54-66): the documents and their
texts are stored and `TfidfVectorizer(stop_words="english").fit_transform`
is called on the texts; sklearn raises a ValueError when the fitted
vocabulary is empty (in particular on an empty document collection), and
otherwise the state of the engine is determined by the document list. -/
def ragInit (docs : List Doc) : Except String (List Doc) :=
  if vocabOf (ragTexts docs) = [] then Except.error emptyVocabMessage
  else Except.ok docs

/-- Smoothed inverse document frequency used by the vectorizer
(`smooth_idf=True`): `log((1+n)/(1+df)) + 1`. -/
noncomputable def idf (texts : List String) (term : String) : ℝ :=
  Real.log ((1 + (texts.length : ℝ)) / (1 + (df texts term : ℝ))) + 1

/-- Unnormalised tf-idf coordinate of a text at vocabulary dimension `i`.
Tokens outside the fitted vocabulary contribute to no dimension. -/
noncomputable def rawVec (texts : List String) (text : String) (i : ℕ) : ℝ :=
  (tf text ((vocabOf texts).getD i "") : ℝ) * idf texts ((vocabOf texts).getD i "")

/-- L2 normalisation over the first `d` coordinates; a zero vector stays
zero, exactly as in sklearn's `normalize` (and as division by zero behaves
in Lean). -/
noncomputable def l2normalize (d : ℕ) (v : ℕ → ℝ) : ℕ → ℝ :=
  fun i => v i / Real.sqrt (∑ j ∈ Finset.range d, v j ^ 2)

/-- Normalised tf-idf row of a text over the vocabulary of `texts`. -/
noncomputable def tfidfVec (texts : List String) (text : String) : ℕ → ℝ :=
  l2normalize (vocabOf texts).length (rawVec texts text)

/-- Cosine similarity of the query row and one document row: the dot
product computed by `linear_kernel` in `RAG.retrieve`. -/
noncomputable def similarity (texts : List String) (queryText docText : String) : ℝ :=
  ∑ i ∈ Finset.range (vocabOf texts).length,
    tfidfVec texts queryText i * tfidfVec texts docText i

/-- The score array `linear_kernel(query_vec, self.doc_vectors).flatten()`
of `RAG.retrieve`, one entry per document. -/
noncomputable def scoresOf (docs : List Doc) (query : String) : List ℝ :=
  (ragTexts docs).map (fun t => similarity (ragTexts docs) query t)

/-- Ascending `argsort` of a score list: the index list `range n` sorted
by score with a stable sort, which is numpy's observable behaviour on the
small arrays this program works with. -/
noncomputable def argsortAsc (s : List ℝ) : List ℕ :=
  List.insertionSort (fun i j => s.getD i 0 ≤ s.getD j 0) (List.range s.length)

/-- Embeds the ranking part of `RAG.retrieve` (src/rag.py, lines 88-91):
`scores.argsort()[::-1][:k]` followed by the comprehension that keeps the
pairs `(idx, scores[idx])` with a strictly positive score. -/
noncomputable def topKPositive (s : List ℝ) (k : ℕ) : List (ℕ × ℝ) :=
  (((argsortAsc s).reverse.take k).filter (fun i => decide (0 < s.getD i 0))).map
    (fun i => (i, s.getD i 0))

/-- Embeds `RAG.retrieve` (src/rag.py, lines 68-91): an empty query returns
`[]` at once, otherwise the documents are ranked by score. -/
noncomputable def retrieve (docs : List Doc) (query : String) (k : ℕ) : List (ℕ × ℝ) :=
  if query = "" then [] else topKPositive (scoresOf docs query) k

/-- Fallback string returned by `RAG.answer` when nothing is retrieved. -/
def fallbackAnswer : String :=
  "I\x27m sorry, I couldn\x27t find information on that topic."

/-- Embeds `RAG.answer` (src/rag.py, lines 93-106): retrieve, fall back on
an empty result, otherwise format title and description of the top
document. -/
noncomputable def answer (docs : List Doc) (query : String) (k : ℕ) : String :=
  match retrieve docs query k with
  | [] => fallbackAnswer
  | (idx, _) :: _ =>
    (docs.getD idx (Doc.mk none none)).title.getD "" ++ ": " ++
      (docs.getD idx (Doc.mk none none)).description.getD ""

/-- Python slice `l[:k]` for an `int` bound `k`: a negative bound counts
from the end of the list, clamped at zero. -/
def pySliceTo (l : List ℤ) (k : ℤ) : List ℤ :=
  if 0 ≤ k then l.take k.toNat else l.take ((l.length : ℤ) + k).toNat

/-- Embeds `precision_at_k` (src/evaluate.py, lines 28-45):
`1.0 if relevant_index in ranking[:k] else 0.0`, with the float result
modelled as an exact rational. -/
def precision_at_k (ranking : List ℤ) (relevant_index : ℤ) (k : ℤ) : ℚ :=
  if relevant_index ∈ pySliceTo ranking k then 1 else 0

/-- Two-document collection with identical texts, used to exhibit the
tie-breaking behaviour of `retrieve`. -/
def appleDoc : Doc := Doc.mk (some "apple") none

/-- Document list consisting of two copies of `appleDoc`. -/
def twoApples : List Doc := [appleDoc, appleDoc]


/-! Generic facts about the ranking pipeline of `retrieve`. -/

theorem argsortAsc_perm (s : List ℝ) : (argsortAsc s).Perm (List.range s.length) :=
  List.perm_insertionSort _ _

theorem argsortAsc_sorted (s : List ℝ) :
    (argsortAsc s).Pairwise (fun i j => s.getD i 0 ≤ s.getD j 0) := by
  haveI : IsTotal ℕ (fun i j => s.getD i 0 ≤ s.getD j 0) := ⟨fun i j => le_total _ _⟩
  haveI : IsTrans ℕ (fun i j => s.getD i 0 ≤ s.getD j 0) :=
    ⟨fun a b c hab hbc => le_trans hab hbc⟩
  exact List.sorted_insertionSort _ _

theorem orderedInsert_pairwise_lex (f : ℕ → ℝ) (x : ℕ) :
    ∀ l : List ℕ, l.Pairwise (fun i j => f i ≤ f j) →
      l.Pairwise (fun i j => f i < f j ∨ (f i = f j ∧ i < j)) →
      (∀ y ∈ l, x < y) →
      (List.orderedInsert (fun i j => f i ≤ f j) x l).Pairwise
        (fun i j => f i < f j ∨ (f i = f j ∧ i < j)) := by
  intro l
  induction l with
  | nil =>
    intro _ _ _
    simp
  | cons b t ih =>
    intro hs hp hx
    by_cases hxb : f x ≤ f b
    · rw [List.orderedInsert, if_pos hxb]
      refine List.pairwise_cons.mpr ⟨?_, hp⟩
      intro z hz
      rcases List.mem_cons.mp hz with rfl | hzt
      · rcases lt_or_eq_of_le hxb with h | h
        · exact Or.inl h
        · exact Or.inr ⟨h, hx z (List.mem_cons_self _ _)⟩
      · have hbz : f b ≤ f z := (List.pairwise_cons.mp hs).1 z hzt
        rcases lt_or_eq_of_le (le_trans hxb hbz) with h | h
        · exact Or.inl h
        · exact Or.inr ⟨h, hx z (List.mem_cons_of_mem b hzt)⟩
    · rw [List.orderedInsert, if_neg hxb]
      refine List.pairwise_cons.mpr ⟨?_, ?_⟩
      · intro z hz
        rcases (List.mem_orderedInsert _).mp hz with rfl | hzt
        · exact Or.inl (not_le.mp hxb)
        · exact (List.pairwise_cons.mp hp).1 z hzt
      · exact ih (List.pairwise_cons.mp hs).2 (List.pairwise_cons.mp hp).2
          (fun y hy => hx y (List.mem_cons_of_mem b hy))

theorem insertionSort_pairwise_lex (f : ℕ → ℝ) :
    ∀ l : List ℕ, l.Pairwise (fun i j : ℕ => i < j) →
      (List.insertionSort (fun i j => f i ≤ f j) l).Pairwise
        (fun i j => f i < f j ∨ (f i = f j ∧ i < j)) := by
  intro l
  induction l with
  | nil =>
    intro _
    simp
  | cons x t ih =>
    intro h
    have hparts := List.pairwise_cons.mp h
    have hsorted : (List.insertionSort (fun i j => f i ≤ f j) t).Pairwise
        (fun i j => f i ≤ f j) := by
      haveI : IsTotal ℕ (fun i j => f i ≤ f j) := ⟨fun i j => le_total _ _⟩
      haveI : IsTrans ℕ (fun i j => f i ≤ f j) := ⟨fun a b c hab hbc => le_trans hab hbc⟩
      exact List.sorted_insertionSort _ _
    have hmem : ∀ y ∈ List.insertionSort (fun i j => f i ≤ f j) t, x < y := by
      intro y hy
      exact hparts.1 y ((List.perm_insertionSort _ t).mem_iff.mp hy)
    simpa only [List.insertionSort] using
      orderedInsert_pairwise_lex f x _ hsorted (ih hparts.2) hmem

theorem argsortAsc_pairwise_lex (s : List ℝ) :
    (argsortAsc s).Pairwise
      (fun i j => s.getD i 0 < s.getD j 0 ∨ (s.getD i 0 = s.getD j 0 ∧ i < j)) :=
  insertionSort_pairwise_lex (fun i => s.getD i 0) _ (List.pairwise_lt_range _)

theorem topKPositive_pairwise (s : List ℝ) (k : ℕ) :
    (topKPositive s k).Pairwise
      (fun a b => b.2 < a.2 ∨ (b.2 = a.2 ∧ b.1 < a.1)) := by
  have hrev : (argsortAsc s).reverse.Pairwise
      (fun i j => s.getD j 0 < s.getD i 0 ∨ (s.getD j 0 = s.getD i 0 ∧ j < i)) :=
    List.pairwise_reverse.mpr (argsortAsc_pairwise_lex s)
  have hsub : List.Sublist
      (((argsortAsc s).reverse.take k).filter (fun i => decide (0 < s.getD i 0)))
      (argsortAsc s).reverse :=
    (List.filter_sublist _).trans (List.take_sublist _ _)
  exact List.pairwise_map.mpr (hrev.sublist hsub)

theorem take_filter_length (s : List ℝ) :
    ∀ D : List ℕ, D.Pairwise (fun i j => s.getD j 0 ≤ s.getD i 0) →
      ∀ k : ℕ, ((D.take k).filter (fun i => decide (0 < s.getD i 0))).length
        = min k (D.countP (fun i => decide (0 < s.getD i 0))) := by
  intro D
  induction D with
  | nil =>
    intro _ k
    simp
  | cons i D ih =>
    intro hD k
    have hparts := List.pairwise_cons.mp hD
    cases k with
    | zero => simp
    | succ k =>
      have hlen := ih hparts.2 k
      by_cases h : 0 < s.getD i 0
      · simp only [List.take_succ_cons, List.filter_cons, List.countP_cons,
          decide_eq_true_eq, h, if_true, List.length_cons, hlen]
        omega
      · have hnone : ∀ j ∈ D, ¬ (0 < s.getD j 0) := by
          intro j hj hpos
          exact h (lt_of_lt_of_le hpos (hparts.1 j hj))
        have hc : D.countP (fun i => decide (0 < s.getD i 0)) = 0 := by
          apply List.countP_eq_zero.mpr
          intro a ha
          simpa using hnone a ha
        have hf : (D.take k).filter (fun i => decide (0 < s.getD i 0)) = [] := by
          apply List.filter_eq_nil_iff.mpr
          intro a ha
          simpa using hnone a (List.take_subset k D ha)
        simp only [List.take_succ_cons, List.filter_cons, List.countP_cons,
          decide_eq_true_eq, h, if_false, hf, hc]
        simp

theorem countP_range_getD (s : List ℝ) :
    (List.range s.length).countP (fun i => decide (0 < s.getD i 0))
      = s.countP (fun x => decide (0 < x)) := by
  induction s with
  | nil => simp
  | cons a t ih =>
    simp only [List.length_cons, List.range_succ_eq_map, List.countP_cons,
      List.countP_map, List.getD_cons_zero]
    have hfun : ((fun i => decide (0 < (a :: t).getD i 0)) ∘ Nat.succ)
        = (fun i => decide (0 < t.getD i 0)) := by
      funext i
      simp [List.getD_cons_succ]
    rw [hfun, ih]

theorem topKPositive_length (s : List ℝ) (k : ℕ) :
    (topKPositive s k).length = min k (s.countP (fun x => decide (0 < x))) := by
  unfold topKPositive
  rw [List.length_map]
  have hd : (argsortAsc s).reverse.Pairwise (fun i j => s.getD j 0 ≤ s.getD i 0) :=
    List.pairwise_reverse.mpr (argsortAsc_sorted s)
  rw [take_filter_length s _ hd k]
  congr 1
  rw [((argsortAsc s).reverse_perm).countP_eq, (argsortAsc_perm s).countP_eq]
  exact countP_range_getD s

theorem mem_topKPositive (s : List ℝ) (k : ℕ) (p : ℕ × ℝ)
    (hp : p ∈ topKPositive s k) :
    0 < p.2 ∧ p.2 = s.getD p.1 0 ∧ p.1 < s.length := by
  unfold topKPositive at hp
  rcases List.mem_map.mp hp with ⟨i, hi, rfl⟩
  have hpos : 0 < s.getD i 0 := by
    have := List.of_mem_filter hi
    simpa using this
  refine ⟨hpos, rfl, ?_⟩
  by_contra hge
  push_neg at hge
  rw [List.getD_eq_default _ _ hge] at hpos
  exact lt_irrefl 0 hpos

theorem topKPositive_nodup (s : List ℝ) (k : ℕ) :
    ((topKPositive s k).map Prod.fst).Nodup := by
  unfold topKPositive
  rw [List.map_map]
  have hid : (Prod.fst ∘ fun i : ℕ => (i, s.getD i 0)) = id := rfl
  rw [hid, List.map_id]
  have hnodup : (argsortAsc s).reverse.Nodup :=
    List.nodup_reverse.mpr ((argsortAsc_perm s).nodup_iff.mpr (List.nodup_range _))
  exact hnodup.sublist ((List.filter_sublist _).trans (List.take_sublist _ _))


/-! Facts about the similarity scores. -/

theorem sum_sq_l2normalize_le_one (d : ℕ) (v : ℕ → ℝ) :
    ∑ i ∈ Finset.range d, l2normalize d v i ^ 2 ≤ 1 := by
  have hS : 0 ≤ ∑ j ∈ Finset.range d, v j ^ 2 :=
    Finset.sum_nonneg (fun j _ => sq_nonneg _)
  simp only [l2normalize]
  rcases eq_or_lt_of_le hS with h0 | hpos
  · rw [← h0, Real.sqrt_zero]
    simp
  · have hcalc : ∀ i, (v i / Real.sqrt (∑ j ∈ Finset.range d, v j ^ 2)) ^ 2
        = v i ^ 2 / (∑ j ∈ Finset.range d, v j ^ 2) := by
      intro i
      rw [div_pow, Real.sq_sqrt hS]
    rw [Finset.sum_congr rfl (fun i _ => hcalc i), ← Finset.sum_div,
      div_self (ne_of_gt hpos)]

theorem similarity_le_one (texts : List String) (qt dt : String) :
    similarity texts qt dt ≤ 1 := by
  unfold similarity tfidfVec
  have hcs := Real.sum_mul_le_sqrt_mul_sqrt (Finset.range (vocabOf texts).length)
    (l2normalize (vocabOf texts).length (rawVec texts qt))
    (l2normalize (vocabOf texts).length (rawVec texts dt))
  refine le_trans hcs ?_
  have h1 := Real.sqrt_le_sqrt
    (sum_sq_l2normalize_le_one (vocabOf texts).length (rawVec texts qt))
  have h2 := Real.sqrt_le_sqrt
    (sum_sq_l2normalize_le_one (vocabOf texts).length (rawVec texts dt))
  rw [Real.sqrt_one] at h1 h2
  exact mul_le_one₀ h1 (Real.sqrt_nonneg _) h2

theorem similarity_empty_query (texts : List String) (dt : String) :
    similarity texts "" dt = 0 := by
  have htf : ∀ term, tf "" term = 0 := fun term => rfl
  unfold similarity tfidfVec l2normalize rawVec
  simp [htf]

theorem scoresOf_length (docs : List Doc) (q : String) :
    (scoresOf docs q).length = docs.length := by
  simp [scoresOf, ragTexts]

theorem countP_scoresOf_empty_query (docs : List Doc) :
    (scoresOf docs "").countP (fun x => decide (0 < x)) = 0 := by
  apply List.countP_eq_zero.mpr
  intro a ha
  rcases List.mem_map.mp ha with ⟨t, _, rfl⟩
  simp [similarity_empty_query]

theorem retrieve_eq_topK (docs : List Doc) (q : String) (k : ℕ) (h : q ≠ "") :
    retrieve docs q k = topKPositive (scoresOf docs q) k := if_neg h

/-! Concrete evaluation of `retrieve` on two identical documents. -/

theorem similarity_apple_one :
    similarity ["apple ", "apple "] "apple" "apple " = 1 := by
  have hv : vocabOf ["apple ", "apple "] = ["apple"] := by decide
  have hdf : df ["apple ", "apple "] "apple" = 2 := by decide
  have hidf : idf ["apple ", "apple "] "apple" = 1 := by
    rw [idf, hdf]
    norm_num [Real.log_one]
  have htf1 : tf "apple" "apple" = 1 := by decide
  have htf2 : tf "apple " "apple" = 1 := by decide
  unfold similarity tfidfVec l2normalize rawVec
  rw [hv]
  simp only [List.length_singleton, Finset.sum_range_one, List.getD_cons_zero]
  rw [htf1, htf2, hidf]
  norm_num [Real.sqrt_one]

theorem scoresOf_twoApples : scoresOf twoApples "apple" = [1, 1] := by
  show ((ragTexts twoApples).map fun t => similarity (ragTexts twoApples) "apple" t) = [1, 1]
  rw [show ragTexts twoApples = ["apple ", "apple "] from rfl]
  rw [List.map_cons, List.map_cons, List.map_nil, similarity_apple_one]

theorem topK_ones : topKPositive [(1 : ℝ), 1] 2 = [(1, 1), (0, 1)] := by
  have hsort : List.insertionSort
      (fun i j => [(1 : ℝ), 1].getD i 0 ≤ [(1 : ℝ), 1].getD j 0) [0, 1] = [0, 1] := by
    simp [List.insertionSort, List.orderedInsert]
  have hlen : ([(1 : ℝ), 1]).length = 2 := rfl
  have hrange : List.range 2 = [0, 1] := rfl
  unfold topKPositive argsortAsc
  rw [hlen, hrange, hsort]
  simp [List.filter]

theorem retrieve_twoApples : retrieve twoApples "apple" 2 = [(1, 1), (0, 1)] := by
  rw [retrieve_eq_topK twoApples "apple" 2 (by decide), scoresOf_twoApples, topK_ones]


/-! Claim theorems. -/

/-- C1: the claim says that building the engine from an empty document
collection succeeds; on the code, `RAG.__init__` calls
`TfidfVectorizer.fit_transform` on the empty text list, which raises
`ValueError("empty vocabulary; perhaps the documents only contain stop
words")`, so construction fails.  This theorem evaluates the embedded
constructor at the failing input. -/
theorem C1_empty_collection_build_fails :
    ragInit ([] : List Doc) = Except.error emptyVocabMessage := rfl

/-- C2 (amended): for every query and k the sequence returned by
`retrieve` is sorted by score descending, and whenever two returned
entries have equal scores the entry with the LARGER document index comes
first (ties are broken by descending document index, because the
ascending stable `argsort` is reversed). -/
theorem C2_retrieve_sorted_desc (docs : List Doc) (q : String) (k : ℕ) :
    (retrieve docs q k).Pairwise
      (fun a b => b.2 < a.2 ∨ (b.2 = a.2 ∧ b.1 < a.1)) := by
  by_cases h : q = ""
  · subst h
    simp [retrieve]
  · rw [retrieve_eq_topK docs q k h]
    exact topKPositive_pairwise _ _

/-- C2 counterexample: on two identical documents and the query "apple",
`retrieve` returns the tied entries with the larger document index first,
so the claimed ascending tie-break (smaller index first on equal scores)
fails at this concrete input. -/
theorem C2_ties_ascending_false :
    ¬ ((retrieve twoApples "apple" 2).Pairwise
      (fun a b => b.2 < a.2 ∨ (b.2 = a.2 ∧ a.1 < b.1))) := by
  rw [retrieve_twoApples]
  intro h
  have h01 := (List.pairwise_cons.mp h).1 (0, 1) (List.mem_cons_self _ _)
  rcases h01 with hlt | ⟨_, hidx⟩
  · exact lt_irrefl (1 : ℝ) hlt
  · exact (by decide : ¬ (1 : ℕ) < 0) hidx

/-- C3: for every query and every k, the length of `retrieve q k` equals
`min k` (number of documents with positive similarity score); in
particular the length is at most k, `retrieve q 0 = []`, and no returned
entry has a score that is not positive. -/
theorem C3_retrieve_length (docs : List Doc) (q : String) (k : ℕ) :
    (retrieve docs q k).length
      = min k ((scoresOf docs q).countP (fun x => decide (0 < x)))
    ∧ (retrieve docs q k).length ≤ k
    ∧ retrieve docs q 0 = []
    ∧ ∀ p ∈ retrieve docs q k, 0 < p.2 := by
  have hmain : (retrieve docs q k).length
      = min k ((scoresOf docs q).countP (fun x => decide (0 < x))) := by
    by_cases h : q = ""
    · subst h
      rw [countP_scoresOf_empty_query]
      simp [retrieve]
    · rw [retrieve_eq_topK docs q k h, topKPositive_length]
  refine ⟨hmain, ?_, ?_, ?_⟩
  · rw [hmain]
    exact min_le_left _ _
  · by_cases h : q = ""
    · simp [retrieve, h]
    · rw [retrieve_eq_topK docs q 0 h]
      simp [topKPositive]
  · intro p hp
    by_cases h : q = ""
    · subst h
      simp [retrieve] at hp
    · rw [retrieve_eq_topK docs q k h] at hp
      exact (mem_topKPositive _ _ _ hp).1

/-- C3 witness: the theorem applied to the two-document example, where
the top returned entry indeed has positive score. -/
theorem C3_witness : (0 : ℝ) < 1 :=
  (C3_retrieve_length twoApples "apple" 2).2.2.2 (1, 1)
    (by rw [retrieve_twoApples]; exact List.mem_cons_self _ _)

/-- C4: for every document collection and every k, the empty query
returns the empty result without failing. -/
theorem C4_empty_query (docs : List Doc) (k : ℕ) :
    retrieve docs "" k = [] := if_pos rfl

/-- C5: `load` returns exactly the parsed records, in order, when the top
level is an array, and raises the format error exactly when it is not. -/
theorem C5_load_docs (j : Json) :
    (∀ xs : List Json, j = Json.arr xs → load_docs j = Except.ok xs)
    ∧ ((∀ xs : List Json, j ≠ Json.arr xs) →
        load_docs j = Except.error "documents JSON must contain a list") := by
  constructor
  · rintro xs rfl
    rfl
  · intro h
    cases j with
    | arr elems => exact absurd rfl (h elems)
    | null => rfl
    | bool b => rfl
    | num q => rfl
    | str s => rfl
    | obj fields => rfl

/-- C5 witness: a one-element array loads verbatim and a top-level object
is rejected with the format error. -/
theorem C5_witness :
    load_docs (Json.arr [Json.str "laptop"]) = Except.ok [Json.str "laptop"]
    ∧ load_docs (Json.obj []) = Except.error "documents JSON must contain a list" :=
  ⟨(C5_load_docs (Json.arr [Json.str "laptop"])).1 _ rfl,
   (C5_load_docs (Json.obj [])).2 (fun xs h => Json.noConfusion h)⟩

/-- C6: `answer` returns the fixed non-empty fallback string exactly when
`retrieve` is empty, and otherwise formats title and description of the
top-ranked document (with empty-string defaults for missing fields). -/
theorem C6_answer (docs : List Doc) (q : String) (k : ℕ) :
    (retrieve docs q k = [] → answer docs q k = fallbackAnswer)
    ∧ fallbackAnswer ≠ ""
    ∧ (∀ (i : ℕ) (sc : ℝ) (rest : List (ℕ × ℝ)),
        retrieve docs q k = (i, sc) :: rest →
        answer docs q k = (docs.getD i (Doc.mk none none)).title.getD "" ++ ": " ++
          (docs.getD i (Doc.mk none none)).description.getD "") := by
  refine ⟨?_, by decide, ?_⟩
  · intro h
    unfold answer
    rw [h]
  · intro i sc rest h
    unfold answer
    rw [h]

/-- C6 witness: the fallback on an engine that retrieves nothing, and the
formatted top document on the two-document example. -/
theorem C6_witness :
    answer ([] : List Doc) "laptop" 1 = fallbackAnswer
    ∧ answer twoApples "apple" 2 =
        (twoApples.getD 1 (Doc.mk none none)).title.getD "" ++ ": " ++
          (twoApples.getD 1 (Doc.mk none none)).description.getD "" :=
  ⟨(C6_answer ([] : List Doc) "laptop" 1).1
      (by rw [retrieve_eq_topK ([] : List Doc) "laptop" 1 (by decide)]; rfl),
   (C6_answer twoApples "apple" 2).2.2 1 1 [(0, 1)] retrieve_twoApples⟩

/-- C7: for a non-negative cutoff k, `precision_at_k` returns 1 exactly
when the relevant index occurs among the first k elements of the ranking
and 0 otherwise; cutoff 0 always yields 0, and the three boundary
examples of the spec hold. -/
theorem C7_precision_at_k (r : List ℤ) (rel k : ℤ) (hk : 0 ≤ k) :
    (precision_at_k r rel k = 1
      ↔ ∃ i : ℕ, ∃ h : i < r.length, (i : ℤ) < k ∧ r.get ⟨i, h⟩ = rel)
    ∧ (precision_at_k r rel k = 0
      ↔ ¬ ∃ i : ℕ, ∃ h : i < r.length, (i : ℤ) < k ∧ r.get ⟨i, h⟩ = rel)
    ∧ precision_at_k r rel 0 = 0
    ∧ precision_at_k [5, 2, 1] 2 2 = 1
    ∧ precision_at_k [5, 2, 1] 1 1 = 0
    ∧ precision_at_k ([] : List ℤ) 0 3 = 0 := by
  have hmem : rel ∈ pySliceTo r k
      ↔ ∃ i : ℕ, ∃ h : i < r.length, (i : ℤ) < k ∧ r.get ⟨i, h⟩ = rel := by
    rw [pySliceTo, if_pos hk, List.mem_take_iff_getElem]
    constructor
    · rintro ⟨i, hm, hgi⟩
      have h1 : i < k.toNat := lt_of_lt_of_le hm (min_le_left _ _)
      have h2 : i < r.length := lt_of_lt_of_le hm (min_le_right _ _)
      exact ⟨i, h2, Int.lt_toNat.mp h1, by rw [← hgi]; rfl⟩
    · rintro ⟨i, h, hik, hgi⟩
      refine ⟨i, lt_min (Int.lt_toNat.mpr hik) h, ?_⟩
      rw [← hgi]
      rfl
  refine ⟨?_, ?_, ?_, by decide, by decide, by decide⟩
  · constructor
    · intro h1
      by_contra hne
      rw [← hmem] at hne
      unfold precision_at_k at h1
      rw [if_neg hne] at h1
      norm_num at h1
    · intro hex
      unfold precision_at_k
      rw [if_pos (hmem.mpr hex)]
  · constructor
    · intro h0 hex
      unfold precision_at_k at h0
      rw [if_pos (hmem.mpr hex)] at h0
      norm_num at h0
    · intro hne
      unfold precision_at_k
      rw [if_neg (fun hm => hne (hmem.mp hm))]
  · simp [precision_at_k, pySliceTo]

/-- C7 witness: the theorem applied at the first boundary example. -/
theorem C7_witness : precision_at_k [5, 2, 1] 2 2 = 1 :=
  (C7_precision_at_k [5, 2, 1] 2 2 (by decide)).2.2.2.1

/-- C8: every score returned by `retrieve` lies in the half-open interval
(0, 1], and the scores are non-increasing along the result. -/
theorem C8_scores_range (docs : List Doc) (q : String) (k : ℕ) :
    (∀ p ∈ retrieve docs q k, 0 < p.2 ∧ p.2 ≤ 1)
    ∧ (retrieve docs q k).Pairwise (fun a b => b.2 ≤ a.2) := by
  constructor
  · intro p hp
    by_cases h : q = ""
    · subst h
      simp [retrieve] at hp
    · rw [retrieve_eq_topK docs q k h] at hp
      obtain ⟨hpos, heq, hlt⟩ := mem_topKPositive _ _ _ hp
      refine ⟨hpos, ?_⟩
      have hmem : (scoresOf docs q).getD p.1 0 ∈ scoresOf docs q := by
        rw [List.getD_eq_getElem _ _ hlt]
        exact List.getElem_mem hlt
      have hmem2 : (scoresOf docs q).getD p.1 0 ∈
          (ragTexts docs).map (fun t => similarity (ragTexts docs) q t) := hmem
      rcases List.mem_map.mp hmem2 with ⟨t, _, hsim⟩
      rw [heq, ← hsim]
      exact similarity_le_one _ _ _
  · by_cases h : q = ""
    · subst h
      simp [retrieve]
    · rw [retrieve_eq_topK docs q k h]
      refine List.Pairwise.imp ?_ (topKPositive_pairwise _ _)
      rintro a b (hlt | ⟨heq, _⟩)
      · exact le_of_lt hlt
      · exact le_of_eq heq

/-- C8 witness: the theorem applied to the top entry of the two-document
example. -/
theorem C8_witness : (0 : ℝ) < 1 ∧ (1 : ℝ) ≤ 1 :=
  (C8_scores_range twoApples "apple" 2).1 (1, 1)
    (by rw [retrieve_twoApples]; exact List.mem_cons_self _ _)

/-- C9: every index returned by `retrieve` is a valid position into the
document list, and the returned indices are pairwise distinct, so the
lookup `self.docs[idx]` in `answer` never goes out of bounds. -/
theorem C9_indices_valid (docs : List Doc) (q : String) (k : ℕ) (p : ℕ × ℝ)
    (hp : p ∈ retrieve docs q k) :
    p.1 < docs.length ∧ ((retrieve docs q k).map Prod.fst).Nodup := by
  by_cases h : q = ""
  · subst h
    simp [retrieve] at hp
  · rw [retrieve_eq_topK docs q k h] at hp ⊢
    refine ⟨?_, topKPositive_nodup _ _⟩
    have hlt := (mem_topKPositive _ _ _ hp).2.2
    rwa [scoresOf_length] at hlt

/-- C9 witness: the theorem applied to the top entry of the two-document
example. -/
theorem C9_witness :
    1 < twoApples.length ∧ ((retrieve twoApples "apple" 2).map Prod.fst).Nodup :=
  C9_indices_valid twoApples "apple" 2 (1, 1)
    (by rw [retrieve_twoApples]; exact List.mem_cons_self _ _)

/-- C10: a negative cutoff follows Python slice semantics (membership in
all but the last abs k elements), so `precision_at_k` can return 1 for a
negative k; only k = 0 is guaranteed to yield 0. -/
theorem C10_negative_k :
    precision_at_k [5, 2, 1] 5 (-1) = 1
    ∧ precision_at_k [5, 2, 1] 5 (-1) ≠ 0
    ∧ ∀ (r : List ℤ) (rel k : ℤ), k < 0 →
        (precision_at_k r rel k = 1 ↔ rel ∈ r.take ((r.length : ℤ) + k).toNat) := by
  refine ⟨by decide, by decide, ?_⟩
  intro r rel k hk
  unfold precision_at_k pySliceTo
  rw [if_neg (not_le.mpr hk)]
  constructor
  · intro h1
    by_contra hne
    rw [if_neg hne] at h1
    norm_num at h1
  · intro hm
    rw [if_pos hm]

/-- C10 witness: the theorem applied at a concrete negative cutoff. -/
theorem C10_witness :
    precision_at_k [5, 2, 1] 5 (-2) = 1
      ↔ (5 : ℤ) ∈ [(5 : ℤ), 2, 1].take ((([(5 : ℤ), 2, 1].length : ℤ) + (-2)).toNat) :=
  C10_negative_k.2.2 [5, 2, 1] 5 (-2) (by decide)

end RetailRag
